import Mathlib

/-!
Verification development for `copycheck.py` (verified-copy pipeline).

The Python source is shallowly embedded: strings are `List Char`, Python
dicts are association lists (first binding wins on lookup, as built by
`dictSet` which never creates a duplicate key), the filesystem digest
oracle `hash : Str → Option Str` abstracts `compute_sha256_stream`
(`some digest` on success, `none` when the read raises an exception), and
the per-file outcome of `safe_copy_file` is an oracle `copyOk : Str → Bool`.
A directory tree is represented by the list of relative paths that
`list_files_recursive` enumerates (forward-slash separators, as in the
source); file sizes are irrelevant to every property below and are dropped.
-/

namespace Copycheck

/-- Python strings, embedded as lists of characters. -/
abbrev Str := List Char

/-- The code points of every character Python's `str.isspace()` accepts —
the exact set `str.split()` with no separator splits on: tab through
carriage return (9-13), the ASCII file/group/record/unit separators
(28-31), space (32), next line (133), no-break space (160), Ogham space
mark, the Unicode Zs en/em/thin/hair spaces (0x2000-0x200A), line and
paragraph separators, narrow no-break space, medium mathematical space and
ideographic space. -/
def pySpaceCodes : List Nat :=
  [9, 10, 11, 12, 13, 28, 29, 30, 31, 32, 133, 160, 0x1680,
   0x2000, 0x2001, 0x2002, 0x2003, 0x2004, 0x2005, 0x2006, 0x2007,
   0x2008, 0x2009, 0x200A, 0x2028, 0x2029, 0x202F, 0x205F, 0x3000]

/-- Whether a character counts as whitespace for Python's `str.split()`. -/
def isPySpace (c : Char) : Bool :=
  pySpaceCodes.contains c.toNat

/-- Accumulator-style worker for `splitWs`: `cur` holds the characters of the
token currently being read, in reverse order. -/
def splitWsAux : List Char → List Char → List (List Char)
  | [], cur => if cur = [] then [] else [cur.reverse]
  | c :: cs, cur =>
    if isPySpace c then
      if cur = [] then splitWsAux cs [] else cur.reverse :: splitWsAux cs []
    else
      splitWsAux cs (c :: cur)

/-- Python's `str.split()` with no separator: split on runs of whitespace,
discarding empty tokens. (The source calls `line.strip().split()`; the
leading `strip` is a no-op under whitespace splitting.) -/
def splitWs (l : Str) : List Str :=
  splitWsAux l []

/-- Python dict assignment `m[k] = v`: replace the binding in place if the key
is present, otherwise append it. -/
def dictSet (m : List (Str × α)) (k : Str) (v : α) : List (Str × α) :=
  match m with
  | [] => [(k, v)]
  | (k₀, v₀) :: rest =>
    if k₀ = k then (k, v) :: rest else (k₀, v₀) :: dictSet rest k v

/-- Lookup of a key in an association list (first binding wins; `dictSet`
never produces duplicate keys, so this is Python dict lookup). -/
def dictGet (m : List (Str × α)) (k : Str) : Option α :=
  match m with
  | [] => none
  | (k₀, v₀) :: rest => if k₀ = k then some v₀ else dictGet rest k

/-- The keys of a mapping, in binding order. -/
def mappingKeys (m : List (Str × α)) : List Str :=
  m.map Prod.fst

/-- A digest mapping as produced by `write_checksums_file`: relative path to
digest, where `none` is Python's `None` (hash failure sentinel). -/
abbrev Mapping := List (Str × Option Str)

/-- Python's `dict.get(k)` on a digest mapping: returns `None` both when the
key is absent and when the stored value is `None` — the two are
observationally identical to every consumer in the source. -/
def pyGet (m : Mapping) (k : Str) : Option Str :=
  (dictGet m k).join

/-- The sentinel token written to a ledger when hashing a file raised. -/
def ERROR_NO_SHA : Str := "ERROR_NO_SHA".toList

/-- One ledger data line: the source writes the f-string form of
`sha ++ "  *" ++ rel ++ "\n"` (two spaces, then a `*`-marked path). -/
def ledgerLine (sha rel : Str) : Str :=
  sha ++ ' ' :: ' ' :: '*' :: (rel ++ ['\n'])

/-- First header line of a ledger file (`ts` is the wall-clock timestamp). -/
def ledgerHeader1 (ts : Str) : Str :=
  "# checksums file started at ".toList ++ ts ++ ['\n']

/-- Second header line of a ledger file (`pkg` is the package basename). -/
def ledgerHeader2 (pkg : Str) : Str :=
  "# package: ".toList ++ pkg ++ ['\n']

/-- One iteration of the `write_checksums_file` loop: hash the file, record
the digest (or `None`) in the dict and append the corresponding ledger
line (digest line on success, `ERROR_NO_SHA` line on failure). -/
def writeChecksumsStep (hash : Str → Option Str) (acc : Mapping × List Str)
    (rel : Str) : Mapping × List Str :=
  match hash rel with
  | some sha => (dictSet acc.1 rel (some sha), acc.2 ++ [ledgerLine sha rel])
  | none => (dictSet acc.1 rel none, acc.2 ++ [ledgerLine ERROR_NO_SHA rel])

/-- Embedding of `write_checksums_file`: writes the two header lines, then
walks `relpaths` in order, building the in-memory digest mapping and the
ledger lines. Returns the mapping (the function's return value) and the
full line content of the ledger file. -/
def write_checksums_file (relpaths : List Str) (hash : Str → Option Str)
    (ts pkg : Str) : Mapping × List Str :=
  relpaths.foldl (writeChecksumsStep hash)
    ([], [ledgerHeader1 ts, ledgerHeader2 pkg])

/-- One iteration of the ledger-reading loop in the interactive `verify`
flow: skip empty and comment lines, split the line on whitespace, require
at least two tokens, take the first token as the digest and the last token
as the path (stripping one leading `*`), then assign into the dict. -/
def parseLedgerStep (acc : List (Str × Str)) (line : Str) : List (Str × Str) :=
  if line = [] ∨ line.take 1 = ['#'] then acc
  else
    let parts := splitWs line
    if 2 ≤ parts.length then
      let sha := parts.headD []
      let rel₀ := parts.getLastD []
      let rel := if rel₀.take 1 = ['*'] then rel₀.drop 1 else rel₀
      dictSet acc rel sha
    else acc

/-- Embedding of the ledger reader (`main`, interactive `verify` branch):
parse an existing ledger file back into a path → digest-string dict. -/
def parse_checksums_lines (lines : List Str) : List (Str × Str) :=
  lines.foldl parseLedgerStep []

/-- A reloaded ledger dict, whose values are plain Python strings, viewed as
a digest mapping: a `str` value is never `None`, so `dict.get` returns the
stored string for present keys (including the `ERROR_NO_SHA` sentinel, which
the reader stores verbatim). -/
def loadedMapping (m : List (Str × Str)) : Mapping :=
  m.map (fun p => (p.1, some p.2))

/-- Boolean lexicographic order on embedded strings, used only to model
Python's `sorted`; every property proved below is order-independent. -/
def strLeb : List Char → List Char → Bool
  | [], _ => true
  | _ :: _, [] => false
  | a :: as, b :: bs => if a = b then strLeb as bs else decide (a.toNat < b.toNat)

/-- Propositional form of `strLeb` for `List.insertionSort`. -/
def strLe (a b : List Char) : Prop :=
  strLeb a b = true

instance : DecidableRel strLe :=
  fun a b => inferInstanceAs (Decidable (_ = true))

/-- The iteration order of `compare_shas`: `sorted(set(src) | set(dest))`.
Deduplication models the set union; the sort matches the source (its only
effect is the order of the sample lists). -/
def allKeys (src dest : Mapping) : List Str :=
  List.insertionSort strLe ((mappingKeys src ++ mappingKeys dest).dedup)

/-- The five-way branch of the `compare_shas` loop body. -/
inductive Cls where
  | skip
  | extra
  | missing
  | matched
  | mismatched
deriving DecidableEq

/-- Classification of one path by `compare_shas`, following the exact branch
order of the source: both `get`s `None` → skipped; source `None` → extra in
destination; destination `None` → missing in destination; equal digest
strings → matched; otherwise mismatched. -/
def classify (src dest : Mapping) (k : Str) : Cls :=
  match pyGet src k, pyGet dest k with
  | none, none => .skip
  | none, some _ => .extra
  | some _, none => .missing
  | some s, some d => if s = d then .matched else .mismatched

/-- The four accumulator lists built by the `compare_shas` loop. -/
structure CmpLists where
  matched : List Str
  mismatched : List Str
  missing_in_dest : List Str
  extra_in_dest : List Str
deriving DecidableEq

/-- One iteration of the `compare_shas` loop: append the key to the list
chosen by `classify` (or drop it in the skip branch). -/
def compareStep (src dest : Mapping) (acc : CmpLists) (k : Str) : CmpLists :=
  match classify src dest k with
  | .skip => acc
  | .extra => { acc with extra_in_dest := acc.extra_in_dest ++ [k] }
  | .missing => { acc with missing_in_dest := acc.missing_in_dest ++ [k] }
  | .matched => { acc with matched := acc.matched ++ [k] }
  | .mismatched => { acc with mismatched := acc.mismatched ++ [k] }

/-- The four classification lists of `compare_shas`, before the summary dict
is assembled. -/
def compare_lists (src dest : Mapping) : CmpLists :=
  (allKeys src dest).foldl (compareStep src dest) ⟨[], [], [], []⟩

/-- The summary dict returned by `compare_shas`: the four counters plus
bounded (first 200) samples of the non-matched categories. -/
structure Summary where
  matched : Nat
  mismatched : Nat
  missing_in_destination : Nat
  extra_in_destination : Nat
  mismatch_sample : List Str
  missing_sample : List Str
  extra_sample : List Str
deriving DecidableEq

/-- Embedding of `compare_shas`. -/
def compare_shas (src dest : Mapping) : Summary :=
  let ls := compare_lists src dest
  { matched := ls.matched.length
    mismatched := ls.mismatched.length
    missing_in_destination := ls.missing_in_dest.length
    extra_in_destination := ls.extra_in_dest.length
    mismatch_sample := ls.mismatched.take 200
    missing_sample := ls.missing_in_dest.take 200
    extra_sample := ls.extra_in_dest.take 200 }

/-- The module constant `EXCLUDE_PREFIXES = ("checksums_source_",)`. -/
def EXCLUDE_PREFIXES : List Str :=
  ["checksums_source_".toList]

/-- The filename (basename) of a relative path: the part after the last
forward slash. `os.walk` hands the loop the filename directly; in this
embedding it is recovered from the relative path. -/
def pyBasename (r : Str) : Str :=
  (r.reverse.takeWhile (fun c => !(c = '/'))).reverse

/-- The copy-exclusion test `any(fn.startswith(p) for p in EXCLUDE_PREFIXES)`
applied to a filename. -/
def excludedFileName (fn : Str) : Bool :=
  EXCLUDE_PREFIXES.any (fun p => p.isPrefixOf fn)

/-- Embedding of `copy_include_top_with_progress`, which walks the source
tree (given as `srcWalk`, the relative paths present at copy time), keeps
the paths whose filename does not start with an excluded prefix
(`files_to_copy`), and then copies them one by one, appending to `copied`
only on success and continuing on failure. It performs no check at all on
whether the destination root already exists (`os.makedirs(final_dest,
exist_ok=True)` then copy, unconditionally): the function has no overwrite
consent parameter to model. Returns `(files_to_copy, copied)`. -/
def copy_include_top_with_progress (srcWalk : List Str) (copyOk : Str → Bool) :
    List Str × List Str :=
  let files_to_copy := srcWalk.filter (fun r => !excludedFileName (pyBasename r))
  (files_to_copy, files_to_copy.filter copyOk)

/-- Name of the source ledger file: `checksums_source_<stamp>.txt`. -/
def srcLedgerName (stamp : Str) : Str :=
  "checksums_source_".toList ++ stamp ++ ".txt".toList

/-- Name of the destination ledger file: `checksums_dest_<stamp>.txt`. -/
def destLedgerName (stamp : Str) : Str :=
  "checksums_dest_".toList ++ stamp ++ ".txt".toList

/-- The manifest object assembled by `write_manifest` (fields irrelevant to
every claim — `created_at`, sizes inside the inventory — are dropped; the
inventory entries keep `rel_path` and `sha256`). -/
structure Manifest where
  package_name : Str
  technician : Str
  stamp : Str
  file_count : Nat
  files : List (Str × Option Str)
  src_checksums_name : Str
  dest_checksums_name : Str
  src_checksums_hash : Option Str
  dest_checksums_hash : Option Str
  verification : Summary
  overall_status : Str

/-- The manifest verdict. In the source this expression appears inside the
dict literal of `write_manifest` as `overall_status = "PASS" if (...) else
"FAIL"` — keyword-assignment syntax that is invalid inside a dict display
(a `SyntaxError`); the condition itself is modelled exactly as written. -/
def overall_status (verification : Summary) : Str :=
  if verification.mismatched = 0 ∧ verification.missing_in_destination = 0 ∧
      verification.extra_in_destination = 0 then
    "PASS".toList
  else
    "FAIL".toList

/-- Embedding of `write_manifest`: the files inventory is the item list
sorted by relative path, each entry carrying `dest_shas.get(rel)` as its
`sha256`; `file_count` is the length of that inventory. -/
def write_manifest (pkg tech stamp : Str) (items : List Str)
    (dest_shas : Mapping) (verification : Summary)
    (src_name dest_name : Str) (src_hash dest_hash : Option Str) : Manifest :=
  let files_section :=
    (List.insertionSort strLe items).map (fun rel => (rel, pyGet dest_shas rel))
  { package_name := pkg
    technician := tech
    stamp := stamp
    file_count := files_section.length
    files := files_section
    src_checksums_name := src_name
    dest_checksums_name := dest_name
    src_checksums_hash := src_hash
    dest_checksums_hash := dest_hash
    verification := verification
    overall_status := overall_status verification }

/-- All intermediate values of one run of the `all` flow. -/
structure FlowResult where
  src_shas : Mapping
  src_ledger : List Str
  files_to_copy : List Str
  copied : List Str
  dest_shas : Mapping
  dest_ledger : List Str
  summary : Summary
  items_dest : List Str
  manifest : Manifest

/-- Embedding of `run_all_flow` (the destination root did not pre-exist, or
consent was given; the flow then runs to completion). Stage order follows
the source: enumerate the source tree (`srcTree`), hash it while writing
the source ledger into the source root, copy — the walk now also sees the
just-written source ledger, which the exclusion filter drops — hash the
copied files while writing the destination ledger into the destination
root, compare, then re-enumerate the destination (which now holds the
copied files plus the destination ledger) and write the manifest.
`hashS`/`hashD` are the digest oracles of the two hash passes and
`ledgerHashS`/`ledgerHashD` the digests of the two ledger files themselves
(`compute_small_file_sha256`). -/
def run_all_flow (srcTree : List Str) (stamp ts pkg tech : Str)
    (hashS hashD : Str → Option Str) (copyOk : Str → Bool)
    (ledgerHashS ledgerHashD : Option Str) : FlowResult :=
  let src := write_checksums_file srcTree hashS ts pkg
  let srcWalk := srcTree ++ [srcLedgerName stamp]
  let cp := copy_include_top_with_progress srcWalk copyOk
  let dest := write_checksums_file cp.2 hashD ts pkg
  let summary := compare_shas src.1 dest.1
  let items_dest := cp.2 ++ [destLedgerName stamp]
  { src_shas := src.1
    src_ledger := src.2
    files_to_copy := cp.1
    copied := cp.2
    dest_shas := dest.1
    dest_ledger := dest.2
    summary := summary
    items_dest := items_dest
    manifest := write_manifest pkg tech stamp items_dest dest.1 summary
      (srcLedgerName stamp) (destLedgerName stamp) ledgerHashS ledgerHashD }

/-- The sixteen characters a lowercase hexadecimal digest is made of. -/
def lowercaseHexDigits : List Char :=
  "0123456789abcdef".toList

/-- What `hashlib.sha256(...).hexdigest()` returns: a 64-character lowercase
hexadecimal string. -/
def isSha256Hex (s : Str) : Prop :=
  s.length = 64 ∧ ∀ c ∈ s, c ∈ lowercaseHexDigits

instance : DecidablePred isSha256Hex :=
  fun s => inferInstanceAs
    (Decidable (s.length = 64 ∧ ∀ c ∈ s, c ∈ lowercaseHexDigits))

/-- A concrete 64-character lowercase hexadecimal digest (the SHA-256 of the
three bytes `123`), used for concrete instantiations. -/
def demoDigest : Str :=
  "a665a45920422f9d417e4867efdc4fb8a04a1f3fff1fa07e998e86f7f7a27ae3".toList

/-- A concrete run over the one-file tree `f.txt` whose single file is
unreadable: the source hash pass raises (null digest), and the copy of the
file fails as well. -/
def flowUnreadableFile : FlowResult :=
  run_all_flow ["f.txt".toList] "20240101_120000".toList "T".toList
    "P".toList "tech".toList (fun _ => none) (fun _ => none)
    (fun _ => false) none none

/-- A concrete run over a tree that contains a stale source ledger file from
an earlier run next to a payload file; everything hashes and copies fine. -/
def flowWithStaleLedger : FlowResult :=
  run_all_flow ["a.txt".toList, "checksums_source_20230101_000000.txt".toList]
    "20240101_120000".toList "T".toList "P".toList "tech".toList
    (fun _ => some demoDigest) (fun _ => some demoDigest) (fun _ => true)
    none none

/-- A concrete run over a two-file tree in which every hash succeeds but the
transfer of `b.txt` fails. -/
def flowCopyFailure : FlowResult :=
  run_all_flow ["a.txt".toList, "b.txt".toList] "20240101_120000".toList
    "T".toList "P".toList "tech".toList (fun _ => some demoDigest)
    (fun _ => some demoDigest) (fun r => !(r = "b.txt".toList)) none none

end Copycheck

namespace Copycheck

theorem dictGet_dictSet (m : List (Str × α)) (k k' : Str) (v : α) :
    dictGet (dictSet m k v) k' = if k = k' then some v else dictGet m k' := by
  induction m with
  | nil => simp [dictSet, dictGet]
  | cons p rest ih =>
    obtain ⟨k₀, v₀⟩ := p
    by_cases h₀ : k₀ = k
    · subst h₀
      by_cases h' : k₀ = k' <;> simp [dictSet, dictGet, h']
    · by_cases h' : k₀ = k'
      · subst h'
        simp [dictSet, dictGet, h₀, Ne.symm h₀]
      · simp [dictSet, dictGet, h₀, h', ih]

theorem dictSet_eq_append (m : List (Str × α)) (k : Str) (v : α)
    (h : k ∉ mappingKeys m) : dictSet m k v = m ++ [(k, v)] := by
  induction m with
  | nil => rfl
  | cons p rest ih =>
    obtain ⟨k₀, v₀⟩ := p
    have h1 : k ≠ k₀ := fun he => h (by rw [he]; exact List.mem_cons_self _ _)
    have h2 : k ∉ mappingKeys rest := fun hm => h (List.mem_cons_of_mem _ hm)
    simp only [dictSet, if_neg (Ne.symm h1)]
    rw [ih h2]
    rfl

theorem mem_mappingKeys_of_dictGet (m : List (Str × α)) (k : Str)
    (h : dictGet m k ≠ none) : k ∈ mappingKeys m := by
  induction m with
  | nil => exact absurd rfl h
  | cons p rest ih =>
    obtain ⟨k₀, v₀⟩ := p
    by_cases hk : k₀ = k
    · subst hk
      exact List.mem_cons_self _ _
    · have h' : dictGet rest k ≠ none := by
        simp only [dictGet] at h
        rwa [if_neg hk] at h
      exact List.mem_cons_of_mem _ (ih h')

theorem splitWsAux_append (a : Str) (rest cur : List Char)
    (ha : ∀ c ∈ a, isPySpace c = false) :
    splitWsAux (a ++ rest) cur = splitWsAux rest (a.reverse ++ cur) := by
  induction a generalizing cur with
  | nil => simp
  | cons c a ih =>
    have hc : isPySpace c = false := ha c (List.mem_cons_self _ _)
    have ha' : ∀ x ∈ a, isPySpace x = false :=
      fun x hx => ha x (List.mem_cons_of_mem _ hx)
    simp only [List.cons_append, splitWsAux, hc, Bool.false_eq_true, if_false,
      List.append_eq]
    rw [ih (c :: cur) ha']
    simp [List.append_assoc]

theorem splitWsAux_space (w : Char) (b cur : List Char) (hw : isPySpace w = true) :
    splitWsAux (w :: b) cur =
      if cur = [] then splitWsAux b [] else cur.reverse :: splitWsAux b [] := by
  simp [splitWsAux, hw]

theorem splitWs_ledgerLine (s tok : Str) (hs : s ≠ [])
    (hsw : ∀ c ∈ s, isPySpace c = false) (ht : tok ≠ [])
    (htw : ∀ c ∈ tok, isPySpace c = false) :
    splitWs (s ++ ' ' :: ' ' :: (tok ++ ['\n'])) = [s, tok] := by
  have hrev : s.reverse ≠ [] := by simpa using hs
  have htrev : tok.reverse ≠ [] := by simpa using ht
  unfold splitWs
  rw [splitWsAux_append s _ [] hsw, List.append_nil,
    splitWsAux_space ' ' _ _ (by decide), if_neg hrev,
    splitWsAux_space ' ' _ _ (by decide), if_pos rfl,
    splitWsAux_append tok _ [] htw, List.append_nil,
    splitWsAux_space '\n' _ _ (by decide), if_neg htrev]
  simp [splitWsAux]

theorem writeChecksumsStep_eq (hash : Str → Option Str) (acc : Mapping × List Str)
    (rel : Str) :
    writeChecksumsStep hash acc rel =
      (dictSet acc.1 rel (hash rel),
       acc.2 ++ [ledgerLine ((hash rel).getD ERROR_NO_SHA) rel]) := by
  cases h : hash rel <;> simp [writeChecksumsStep, h]

theorem write_foldl_eq (hash : Str → Option Str) (rels : List Str)
    (m : Mapping) (ls : List Str) :
    rels.foldl (writeChecksumsStep hash) (m, ls) =
      (rels.foldl (fun acc r => dictSet acc r (hash r)) m,
       ls ++ rels.map (fun r => ledgerLine ((hash r).getD ERROR_NO_SHA) r)) := by
  induction rels generalizing m ls with
  | nil => simp
  | cons r rest ih =>
    rw [List.foldl_cons, writeChecksumsStep_eq, ih]
    simp

theorem dictGet_foldl_dictSet (f : Str → α) (rels : List Str)
    (acc : List (Str × α)) (p : Str) :
    dictGet (rels.foldl (fun m r => dictSet m r (f r)) acc) p =
      if p ∈ rels then some (f p) else dictGet acc p := by
  induction rels generalizing acc with
  | nil => simp
  | cons r rest ih =>
    rw [List.foldl_cons, ih]
    by_cases hmem : p ∈ rest
    · simp [hmem]
    · by_cases hrp : r = p
      · subst hrp
        simp [hmem, dictGet_dictSet]
      · simp [hmem, hrp, Ne.symm hrp, dictGet_dictSet, List.mem_cons]

theorem foldl_dictSet_eq_map (f : Str → α) (rels : List Str)
    (acc : List (Str × α)) (hnd : rels.Nodup)
    (hacc : ∀ r ∈ rels, r ∉ mappingKeys acc) :
    rels.foldl (fun m r => dictSet m r (f r)) acc =
      acc ++ rels.map (fun r => (r, f r)) := by
  induction rels generalizing acc with
  | nil => simp
  | cons r rest ih =>
    rw [List.foldl_cons,
      dictSet_eq_append acc r (f r) (hacc r (List.mem_cons_self _ _))]
    have hnd' : rest.Nodup := hnd.of_cons
    have hacc' : ∀ x ∈ rest, x ∉ mappingKeys (acc ++ [(r, f r)]) := by
      intro x hx hmem
      have hmk : mappingKeys (acc ++ [(r, f r)]) = mappingKeys acc ++ [r] := by
        unfold mappingKeys
        rw [List.map_append]
        rfl
      rw [hmk] at hmem
      rcases List.mem_append.mp hmem with h | h
      · exact hacc x (List.mem_cons_of_mem _ hx) h
      · have hxr : x = r := by simpa using h
        exact (List.nodup_cons.mp hnd).1 (hxr ▸ hx)
    rw [ih (acc ++ [(r, f r)]) hnd' hacc']
    simp

theorem write_checksums_file_eq (relpaths : List Str) (hash : Str → Option Str)
    (ts pkg : Str) :
    write_checksums_file relpaths hash ts pkg =
      (relpaths.foldl (fun acc r => dictSet acc r (hash r)) [],
       [ledgerHeader1 ts, ledgerHeader2 pkg] ++
         relpaths.map (fun r => ledgerLine ((hash r).getD ERROR_NO_SHA) r)) := by
  unfold write_checksums_file
  rw [write_foldl_eq]

theorem parseLedgerStep_header1 (acc : List (Str × Str)) (ts : Str) :
    parseLedgerStep acc (ledgerHeader1 ts) = acc := by
  have h : (ledgerHeader1 ts).take 1 = ['#'] := rfl
  simp [parseLedgerStep, h]

theorem parseLedgerStep_header2 (acc : List (Str × Str)) (pkg : Str) :
    parseLedgerStep acc (ledgerHeader2 pkg) = acc := by
  have h : (ledgerHeader2 pkg).take 1 = ['#'] := rfl
  simp [parseLedgerStep, h]

theorem parseLedgerStep_dataLine (acc : List (Str × Str)) (sha rel : Str)
    (hs : sha ≠ []) (hsw : ∀ c ∈ sha, isPySpace c = false)
    (hsh : sha.take 1 ≠ ['#']) (hrw : ∀ c ∈ rel, isPySpace c = false) :
    parseLedgerStep acc (ledgerLine sha rel) = dictSet acc rel sha := by
  obtain ⟨c, sha', rfl⟩ : ∃ c sha', sha = c :: sha' := by
    cases sha with
    | nil => exact absurd rfl hs
    | cons c sha' => exact ⟨c, sha', rfl⟩
  have hline : ledgerLine (c :: sha') rel =
      (c :: sha') ++ ' ' :: ' ' :: (('*' :: rel) ++ ['\n']) := by
    simp [ledgerLine]
  have hne : ledgerLine (c :: sha') rel ≠ [] := by
    rw [hline]
    exact List.cons_ne_nil _ _
  have htake : (ledgerLine (c :: sha') rel).take 1 = [c] := by
    rw [hline]
    rfl
  have hcond : ¬(ledgerLine (c :: sha') rel = [] ∨
      (ledgerLine (c :: sha') rel).take 1 = ['#']) := by
    push_neg
    refine ⟨hne, ?_⟩
    rw [htake]
    intro hcc
    exact hsh (by simpa using hcc)
  have hsplit : splitWs (ledgerLine (c :: sha') rel) = [c :: sha', '*' :: rel] := by
    rw [hline]
    exact splitWs_ledgerLine _ _ (List.cons_ne_nil _ _) hsw (List.cons_ne_nil _ _)
      (by
        intro x hx
        rcases List.mem_cons.mp hx with h | h
        · subst h; rfl
        · exact hrw x h)
  simp [parseLedgerStep, hcond, hsplit]

theorem parse_foldl_dataLines (tok : Str → Str) (rels : List Str)
    (acc : List (Str × Str))
    (htok : ∀ r ∈ rels, tok r ≠ [] ∧ (∀ c ∈ tok r, isPySpace c = false) ∧
      (tok r).take 1 ≠ ['#'])
    (hrel : ∀ r ∈ rels, ∀ c ∈ r, isPySpace c = false) :
    (rels.map (fun r => ledgerLine (tok r) r)).foldl parseLedgerStep acc =
      rels.foldl (fun m r => dictSet m r (tok r)) acc := by
  induction rels generalizing acc with
  | nil => rfl
  | cons r rest ih =>
    have h := htok r (List.mem_cons_self _ _)
    rw [List.map_cons, List.foldl_cons, List.foldl_cons,
      parseLedgerStep_dataLine acc (tok r) r h.1 h.2.1 h.2.2
        (hrel r (List.mem_cons_self _ _))]
    exact ih _ (fun x hx => htok x (List.mem_cons_of_mem _ hx))
      (fun x hx => hrel x (List.mem_cons_of_mem _ hx))

theorem hex_not_space : ∀ c ∈ lowercaseHexDigits, isPySpace c = false := by
  decide

theorem hex_ne_hashChar : ∀ c ∈ lowercaseHexDigits, c ≠ '#' := by
  decide

theorem sha256Hex_token (s : Str) (h : isSha256Hex s) :
    s ≠ [] ∧ (∀ c ∈ s, isPySpace c = false) ∧ s.take 1 ≠ ['#'] := by
  obtain ⟨hlen, hmem⟩ := h
  have hne : s ≠ [] := by
    intro he
    rw [he] at hlen
    exact absurd hlen (by decide)
  refine ⟨hne, fun c hc => hex_not_space c (hmem c hc), ?_⟩
  cases s with
  | nil => exact absurd rfl hne
  | cons c s' =>
    intro hcc
    have : c = '#' := by simpa using hcc
    exact hex_ne_hashChar c (hmem c (List.mem_cons_self _ _)) this

/-- C10: the mapping returned by `write_checksums_file` has key set exactly
the given relative paths — a listed path maps to `some (hash p)` (the digest
on success, the `None` sentinel on hash failure), and an unlisted path has no
entry at all. -/
theorem write_checksums_keyset (relpaths : List Str) (hash : Str → Option Str)
    (ts pkg : Str) (p : Str) :
    dictGet (write_checksums_file relpaths hash ts pkg).1 p =
      if p ∈ relpaths then some (hash p) else none := by
  rw [write_checksums_file_eq]
  simpa using dictGet_foldl_dictSet hash relpaths [] p

/-- C3 (amended): for a tree whose relative paths are distinct, non-empty and
free of whitespace characters, and on which every hash succeeds (producing a
64-character lowercase hexadecimal digest), writing the ledger and re-parsing
it with the ledger reader reproduces the identical digest mapping. -/
theorem roundtrip_write_parse (relpaths : List Str) (hash : Str → Option Str)
    (ts pkg : Str) (hnd : relpaths.Nodup)
    (hpaths : ∀ r ∈ relpaths, r ≠ [] ∧ ∀ c ∈ r, isPySpace c = false)
    (hhash : ∀ r ∈ relpaths, ∃ s, hash r = some s ∧ isSha256Hex s) :
    loadedMapping (parse_checksums_lines
      (write_checksums_file relpaths hash ts pkg).2) =
      (write_checksums_file relpaths hash ts pkg).1 := by
  unfold loadedMapping
  rw [write_checksums_file_eq]
  have htok : ∀ r ∈ relpaths, ((hash r).getD ERROR_NO_SHA) ≠ [] ∧
      (∀ c ∈ (hash r).getD ERROR_NO_SHA, isPySpace c = false) ∧
      ((hash r).getD ERROR_NO_SHA).take 1 ≠ ['#'] := by
    intro r hr
    obtain ⟨s, hsome, hhex⟩ := hhash r hr
    rw [hsome]
    exact sha256Hex_token s hhex
  have hparse :
      parse_checksums_lines ([ledgerHeader1 ts, ledgerHeader2 pkg] ++
        relpaths.map (fun r => ledgerLine ((hash r).getD ERROR_NO_SHA) r)) =
      relpaths.map (fun r => (r, (hash r).getD ERROR_NO_SHA)) := by
    unfold parse_checksums_lines
    rw [List.cons_append, List.cons_append, List.nil_append,
      List.foldl_cons, List.foldl_cons, parseLedgerStep_header1,
      parseLedgerStep_header2,
      parse_foldl_dataLines _ _ _ htok (fun r hr => (hpaths r hr).2),
      foldl_dictSet_eq_map _ _ _ hnd (by intro r _ h; simp [mappingKeys] at h)]
    rfl
  rw [hparse,
    foldl_dictSet_eq_map hash relpaths [] hnd (by intro r _ h; simp [mappingKeys] at h),
    List.nil_append, List.map_map]
  refine List.map_congr_left ?_
  intro r hr
  obtain ⟨s, hsome, _⟩ := hhash r hr
  simp [hsome]

/-- C3 counterexample: a tree with the single file `a b` (a space in its
name) hashes successfully, yet re-parsing the written ledger does not
reproduce the mapping: the written mapping carries the digest under the key
`a b`, while the reloaded dict has no entry for that path (the reader keeps
only the last whitespace-separated token, `b`). -/
theorem roundtrip_counterexample :
    dictGet (write_checksums_file ["a b".toList] (fun _ => some demoDigest)
      "20240101_120000".toList "pkg".toList).1 "a b".toList =
        some (some demoDigest) ∧
    dictGet (parse_checksums_lines (write_checksums_file ["a b".toList]
      (fun _ => some demoDigest) "20240101_120000".toList "pkg".toList).2)
      "a b".toList = none := by
  decide

/-- Concrete instance of the amended round-trip: a one-file tree whose path
has no whitespace, with a successful hash, satisfies every hypothesis of
`roundtrip_write_parse`, and the reader reproduces the written mapping. -/
theorem roundtrip_write_parse_witness :
    (["f.txt".toList] : List Str).Nodup ∧
    (∀ r ∈ (["f.txt".toList] : List Str), r ≠ [] ∧
      ∀ c ∈ r, isPySpace c = false) ∧
    loadedMapping (parse_checksums_lines (write_checksums_file ["f.txt".toList]
      (fun _ => some demoDigest) "T".toList "P".toList).2) =
      (write_checksums_file ["f.txt".toList] (fun _ => some demoDigest)
        "T".toList "P".toList).1 :=
  ⟨by decide, by decide,
    roundtrip_write_parse _ _ _ _ (by decide) (by decide)
      (fun r _ => ⟨demoDigest, rfl, by decide⟩)⟩

theorem compare_foldl (src dest : Mapping) (L : List Str) (acc : CmpLists) :
    L.foldl (compareStep src dest) acc =
      ⟨acc.matched ++ L.filter (fun k => decide (classify src dest k = .matched)),
       acc.mismatched ++
         L.filter (fun k => decide (classify src dest k = .mismatched)),
       acc.missing_in_dest ++
         L.filter (fun k => decide (classify src dest k = .missing)),
       acc.extra_in_dest ++
         L.filter (fun k => decide (classify src dest k = .extra))⟩ := by
  induction L generalizing acc with
  | nil =>
    cases acc
    simp
  | cons k rest ih =>
    rw [List.foldl_cons, ih]
    cases hc : classify src dest k <;>
      simp [compareStep, hc, List.filter_cons]

theorem compare_lists_eq (src dest : Mapping) :
    compare_lists src dest =
      ⟨(allKeys src dest).filter (fun k => decide (classify src dest k = .matched)),
       (allKeys src dest).filter
         (fun k => decide (classify src dest k = .mismatched)),
       (allKeys src dest).filter (fun k => decide (classify src dest k = .missing)),
       (allKeys src dest).filter (fun k => decide (classify src dest k = .extra))⟩ := by
  unfold compare_lists
  rw [compare_foldl]
  simp

theorem classify_eq_skip_iff (src dest : Mapping) (k : Str) :
    classify src dest k = .skip ↔ pyGet src k = none ∧ pyGet dest k = none := by
  cases hs : pyGet src k <;> cases hd : pyGet dest k <;>
    simp [classify, hs, hd]
  split <;> simp

theorem classify_eq_missing_iff (src dest : Mapping) (k : Str) :
    classify src dest k = .missing ↔
      (∃ x, pyGet src k = some x) ∧ pyGet dest k = none := by
  cases hs : pyGet src k <;> cases hd : pyGet dest k <;>
    simp [classify, hs, hd]
  split <;> simp

theorem filter_lengths_sum (src dest : Mapping) (L : List Str) :
    (L.filter (fun k => decide (classify src dest k = .matched))).length +
    (L.filter (fun k => decide (classify src dest k = .mismatched))).length +
    (L.filter (fun k => decide (classify src dest k = .missing))).length +
    (L.filter (fun k => decide (classify src dest k = .extra))).length =
    (L.filter (fun k => !decide (classify src dest k = .skip))).length := by
  induction L with
  | nil => rfl
  | cons k rest ih =>
    cases hc : classify src dest k <;>
      simp [List.filter_cons, hc, List.length_append] <;> omega

theorem mem_allKeys (src dest : Mapping) (k : Str) :
    k ∈ allKeys src dest ↔ k ∈ mappingKeys src ∨ k ∈ mappingKeys dest := by
  unfold allKeys
  rw [(List.perm_insertionSort strLe _).mem_iff, List.mem_dedup, List.mem_append]

/-- C6: the four counters of a comparison summary add up to the number of
distinct paths in the union of the two mappings' key sets that are recorded
(a digest, or even the null sentinel on one side only) in at least one
mapping; paths `dict.get` reports as absent on both sides — for the
comparator a key bound to `None` is indistinguishable from an absent key —
are never counted. -/
theorem compare_counter_sum (src dest : Mapping) :
    (compare_shas src dest).matched + (compare_shas src dest).mismatched +
    (compare_shas src dest).missing_in_destination +
    (compare_shas src dest).extra_in_destination =
    (((mappingKeys src ++ mappingKeys dest).dedup).filter
      (fun k => decide (pyGet src k ≠ none ∨ pyGet dest k ≠ none))).length := by
  have h1 : (compare_shas src dest).matched +
      (compare_shas src dest).mismatched +
      (compare_shas src dest).missing_in_destination +
      (compare_shas src dest).extra_in_destination =
      ((allKeys src dest).filter
        (fun k => !decide (classify src dest k = .skip))).length := by
    show (compare_lists src dest).matched.length +
      (compare_lists src dest).mismatched.length +
      (compare_lists src dest).missing_in_dest.length +
      (compare_lists src dest).extra_in_dest.length = _
    rw [compare_lists_eq]
    exact filter_lengths_sum src dest _
  have h2 : (fun k => !decide (classify src dest k = Cls.skip)) =
      (fun k => decide (pyGet src k ≠ none ∨ pyGet dest k ≠ none)) := by
    funext k
    rw [← decide_not, decide_eq_decide, Not, classify_eq_skip_iff]
    tauto
  rw [h1, h2]
  exact ((List.perm_insertionSort strLe _).filter _).length_eq

theorem dictGet_ne_none_of_mem (m : List (Str × α)) (k : Str)
    (h : k ∈ mappingKeys m) : dictGet m k ≠ none := by
  induction m with
  | nil => simp [mappingKeys] at h
  | cons p rest ih =>
    obtain ⟨k₀, v₀⟩ := p
    by_cases hk : k₀ = k
    · simp [dictGet, hk]
    · have : k ∈ mappingKeys rest := by
        rcases List.mem_cons.mp h with he | hm
        · exact absurd he.symm hk
        · exact hm
      simp only [dictGet, hk, if_false]
      exact ih this

theorem dictGet_mem (m : List (Str × α)) (k : Str) (v : α)
    (h : dictGet m k = some v) : (k, v) ∈ m := by
  induction m with
  | nil => exact absurd h (by simp [dictGet])
  | cons p rest ih =>
    obtain ⟨k₀, v₀⟩ := p
    by_cases hk : k₀ = k
    · subst hk
      have hv : v₀ = v := by
        simpa [dictGet] using h
      subst hv
      exact List.mem_cons_self _ _
    · simp only [dictGet, hk, if_false] at h
      exact List.mem_cons_of_mem _ (ih h)

/-- C7 (amended): comparing a non-empty digest mapping with itself, when all
of its entries carry a real (non-null) digest, yields `matched` equal to the
number of entries and the three non-matched counters at zero. (With a null
entry the path is skipped on both sides and `matched` falls short.) -/
theorem compare_self (A : Mapping) (hA : A ≠ [])
    (hnd : (mappingKeys A).Nodup) (hvals : ∀ p ∈ A, p.2 ≠ none) :
    (compare_shas A A).matched = A.length ∧
    (compare_shas A A).mismatched = 0 ∧
    (compare_shas A A).missing_in_destination = 0 ∧
    (compare_shas A A).extra_in_destination = 0 := by
  have hcls : ∀ k ∈ allKeys A A, classify A A k = .matched := by
    intro k hk
    have hmem : k ∈ mappingKeys A := by
      rcases (mem_allKeys A A k).mp hk with h | h <;> exact h
    obtain ⟨v, hv⟩ : ∃ v, dictGet A k = some v := by
      cases hd : dictGet A k with
      | none => exact absurd hd (dictGet_ne_none_of_mem A k hmem)
      | some v => exact ⟨v, rfl⟩
    obtain ⟨x, hx⟩ : ∃ x, v = some x := by
      cases hv2 : v with
      | none => exact absurd (hv2 ▸ hvals (k, v) (dictGet_mem A k v hv)) (by simp)
      | some x => exact ⟨x, rfl⟩
    have hget : pyGet A k = some x := by
      simp [pyGet, hv, hx]
    simp [classify, hget]
  have hlen : (allKeys A A).length = A.length := by
    have h1 : (allKeys A A).length =
        ((mappingKeys A ++ mappingKeys A).dedup).length :=
      (List.perm_insertionSort strLe _).length_eq
    have h2 : ((mappingKeys A ++ mappingKeys A).dedup).length =
        ((mappingKeys A ++ mappingKeys A).toFinset).card :=
      (List.card_toFinset _).symm
    have h3 : (mappingKeys A ++ mappingKeys A).toFinset =
        (mappingKeys A).toFinset := by
      rw [List.toFinset_append, Finset.union_self]
    have h4 : ((mappingKeys A).toFinset).card = (mappingKeys A).dedup.length :=
      List.card_toFinset _
    have h5 : (mappingKeys A).dedup = mappingKeys A := hnd.dedup
    have h6 : (mappingKeys A).length = A.length := List.length_map _ _
    rw [h1, h2, h3, h4, h5, h6]
  refine ⟨?_, ?_, ?_, ?_⟩
  · show (compare_lists A A).matched.length = A.length
    rw [compare_lists_eq]
    have : (allKeys A A).filter
        (fun k => decide (classify A A k = .matched)) = allKeys A A := by
      rw [List.filter_eq_self]
      intro k hk
      simp [hcls k hk]
    simpa [this] using hlen
  · show (compare_lists A A).mismatched.length = 0
    rw [compare_lists_eq]
    simp only [List.length_eq_zero, List.filter_eq_nil_iff]
    intro k hk
    simp [hcls k hk]
  · show (compare_lists A A).missing_in_dest.length = 0
    rw [compare_lists_eq]
    simp only [List.length_eq_zero, List.filter_eq_nil_iff]
    intro k hk
    simp [hcls k hk]
  · show (compare_lists A A).extra_in_dest.length = 0
    rw [compare_lists_eq]
    simp only [List.length_eq_zero, List.filter_eq_nil_iff]
    intro k hk
    simp [hcls k hk]

/-- C7 counterexample: the singleton mapping binding path `x` to the null
digest is non-empty, yet comparing it with itself yields `matched = 0`, not
`matched = 1` — the null-digest path is skipped on both sides. -/
theorem compare_self_counterexample :
    ([(("x".toList : Str), (none : Option Str))] : Mapping) ≠ [] ∧
    ([(("x".toList : Str), (none : Option Str))] : Mapping).length = 1 ∧
    (compare_shas [("x".toList, none)] [("x".toList, none)]).matched = 0 := by
  decide

/-- Concrete instance of the amended comparison idempotence at a one-entry
mapping with a real digest. -/
theorem compare_self_witness :
    ([(("x".toList : Str), some demoDigest)] : Mapping) ≠ [] ∧
    (compare_shas [("x".toList, some demoDigest)]
      [("x".toList, some demoDigest)]).matched = 1 ∧
    (compare_shas [("x".toList, some demoDigest)]
      [("x".toList, some demoDigest)]).mismatched = 0 ∧
    (compare_shas [("x".toList, some demoDigest)]
      [("x".toList, some demoDigest)]).missing_in_destination = 0 ∧
    (compare_shas [("x".toList, some demoDigest)]
      [("x".toList, some demoDigest)]).extra_in_destination = 0 := by
  have h := compare_self [("x".toList, some demoDigest)] (by decide)
    (by decide) (by decide)
  exact ⟨by decide, by simpa using h.1, h.2.1, h.2.2.1, h.2.2.2⟩

/-- C1: the manifest verdict, exactly as the conditional expression in
`write_manifest` is written, is `PASS` iff the `mismatched`,
`missing_in_destination` and `extra_in_destination` counters are all zero,
and it is insensitive to the `matched` counter. (In the source this
expression sits inside the dict literal as a keyword-style entry
`overall_status = ...`, which is a `SyntaxError`; the condition itself is
modelled verbatim.) -/
theorem manifest_verdict (vs : Summary) :
    (overall_status vs = "PASS".toList ↔
      vs.mismatched = 0 ∧ vs.missing_in_destination = 0 ∧
        vs.extra_in_destination = 0) ∧
    (∀ n : Nat, overall_status { vs with matched := n } = overall_status vs) := by
  constructor
  · unfold overall_status
    by_cases h : vs.mismatched = 0 ∧ vs.missing_in_destination = 0 ∧
        vs.extra_in_destination = 0
    · simp [h]
    · rw [if_neg h]
      constructor
      · intro he
        exact absurd he (by decide)
      · intro hc
        exact absurd hc h
  · intro n
    rfl

/-- C2 failing input: a path whose ledger line carries the `ERROR_NO_SHA`
sentinel on both sides. The ledger reader stores the sentinel as an ordinary
digest string, and `compare_shas` then counts the path as `matched` — the
one classification the spec forbids for an unverified file. -/
theorem sentinel_counted_matched :
    dictGet (parse_checksums_lines [ledgerLine ERROR_NO_SHA "f.txt".toList])
      "f.txt".toList = some ERROR_NO_SHA ∧
    (compare_shas
      (loadedMapping (parse_checksums_lines
        [ledgerLine ERROR_NO_SHA "f.txt".toList]))
      (loadedMapping (parse_checksums_lines
        [ledgerLine ERROR_NO_SHA "f.txt".toList]))).matched = 1 ∧
    (compare_shas
      (loadedMapping (parse_checksums_lines
        [ledgerLine ERROR_NO_SHA "f.txt".toList]))
      (loadedMapping (parse_checksums_lines
        [ledgerLine ERROR_NO_SHA "f.txt".toList]))).missing_in_destination
      = 0 ∧
    (compare_shas
      (loadedMapping (parse_checksums_lines
        [ledgerLine ERROR_NO_SHA "f.txt".toList]))
      (loadedMapping (parse_checksums_lines
        [ledgerLine ERROR_NO_SHA "f.txt".toList]))).mismatched = 0 := by
  decide

theorem pyBasename_no_slash (r : Str) (h : '/' ∉ r) : pyBasename r = r := by
  unfold pyBasename
  have ht : r.reverse.takeWhile (fun c => !(c = '/')) = r.reverse := by
    rw [List.takeWhile_eq_self_iff]
    intro x hx
    have hxr : x ∈ r := List.mem_reverse.mp hx
    simp only [Bool.not_eq_true', decide_eq_false_iff_not]
    exact fun he => h (he ▸ hxr)
  rw [ht, List.reverse_reverse]

theorem slash_not_mem_srcLedgerName (stamp : Str) (h : '/' ∉ stamp) :
    '/' ∉ srcLedgerName stamp := by
  unfold srcLedgerName
  intro hmem
  rcases List.mem_append.mp hmem with h1 | h2
  · rcases List.mem_append.mp h1 with h3 | h4
    · exact absurd h3 (by decide)
    · exact h h4
  · exact absurd h2 (by decide)

theorem srcLedgerName_excluded (stamp : Str) :
    excludedFileName (srcLedgerName stamp) = true := by
  unfold excludedFileName EXCLUDE_PREFIXES srcLedgerName
  simp only [List.any_cons, List.any_nil, Bool.or_false]
  exact List.isPrefixOf_iff_prefix.mpr
    ((List.prefix_append _ _).trans (List.prefix_append _ _))

theorem mem_files_to_copy (srcWalk : List Str) (copyOk : Str → Bool) (r : Str) :
    r ∈ (copy_include_top_with_progress srcWalk copyOk).1 ↔
      r ∈ srcWalk ∧ excludedFileName (pyBasename r) = false := by
  simp [copy_include_top_with_progress, List.mem_filter]

theorem mem_copied (srcWalk : List Str) (copyOk : Str → Bool) (r : Str) :
    r ∈ (copy_include_top_with_progress srcWalk copyOk).2 ↔
      r ∈ srcWalk ∧ excludedFileName (pyBasename r) = false ∧
        copyOk r = true := by
  simp [copy_include_top_with_progress, List.mem_filter, and_assoc]
  tauto

/-- C4 failing evidence: `copy_include_top_with_progress` carries no notion
of overwrite consent at all — its embedding does not even take a
destination-exists flag, because the source checks nothing before copying
(`os.makedirs(final_dest, exist_ok=True)` and then per-file writes): with a
pre-existing destination root and no consent, the engine still copies every
file. No `DestinationExistsError` exists anywhere in the repository; only
`run_all_flow` guards, via an interactive prompt and early return. -/
theorem copy_engine_no_overwrite_guard :
    (copy_include_top_with_progress ["payload.bin".toList] (fun _ => true)).2 =
      ["payload.bin".toList] := by
  decide

/-- C5: a file whose filename starts with the reserved prefix
`checksums_source_` is never in the copied list of the full flow and never a
key of the destination digest mapping. -/
theorem excluded_never_copied (srcTree : List Str) (stamp ts pkg tech : Str)
    (hashS hashD : Str → Option Str) (copyOk : Str → Bool)
    (lhS lhD : Option Str) (r : Str)
    (h : ("checksums_source_".toList).isPrefixOf (pyBasename r) = true) :
    r ∉ (run_all_flow srcTree stamp ts pkg tech hashS hashD copyOk
      lhS lhD).copied ∧
    dictGet (run_all_flow srcTree stamp ts pkg tech hashS hashD copyOk
      lhS lhD).dest_shas r = none := by
  have hexc : excludedFileName (pyBasename r) = true := by
    unfold excludedFileName EXCLUDE_PREFIXES
    simp only [List.any_cons, List.any_nil, Bool.or_false]
    exact h
  have hnc : r ∉ (copy_include_top_with_progress
      (srcTree ++ [srcLedgerName stamp]) copyOk).2 := by
    intro hmem
    have hm := (mem_copied _ _ _).mp hmem
    rw [hexc] at hm
    exact absurd hm.2.1 (by decide)
  refine ⟨hnc, ?_⟩
  have hd : (run_all_flow srcTree stamp ts pkg tech hashS hashD copyOk
      lhS lhD).dest_shas =
      (write_checksums_file (copy_include_top_with_progress
        (srcTree ++ [srcLedgerName stamp]) copyOk).2 hashD ts pkg).1 := rfl
  rw [hd, write_checksums_keyset, if_neg hnc]

/-- Concrete instance of C5: a stale `checksums_source_*.txt` file in the
source tree is neither copied nor present in the destination mapping. -/
theorem excluded_never_copied_witness :
    ("checksums_source_".toList).isPrefixOf
      (pyBasename "checksums_source_20230101_000000.txt".toList) = true ∧
    "checksums_source_20230101_000000.txt".toList ∉ flowWithStaleLedger.copied ∧
    dictGet flowWithStaleLedger.dest_shas
      "checksums_source_20230101_000000.txt".toList = none :=
  ⟨by decide,
    (excluded_never_copied _ _ _ _ _ _ _ _ _ _ _ (by decide)).1,
    (excluded_never_copied _ _ _ _ _ _ _ _ _ _ _ (by decide)).2⟩

/-- C8 (amended): a file of the copy list whose transfer fails is excluded
from the copied list, and — provided its source digest was computed
successfully — it surfaces in the comparison as `missing_in_destination`. -/
theorem copy_failure_surfaces (srcTree : List Str) (stamp ts pkg tech : Str)
    (hashS hashD : Str → Option Str) (copyOk : Str → Bool)
    (lhS lhD : Option Str) (f s : Str)
    (hstamp : '/' ∉ stamp)
    (hf : f ∈ (run_all_flow srcTree stamp ts pkg tech hashS hashD copyOk
      lhS lhD).files_to_copy)
    (hcopy : copyOk f = false)
    (hsrc : hashS f = some s) :
    f ∉ (run_all_flow srcTree stamp ts pkg tech hashS hashD copyOk
      lhS lhD).copied ∧
    f ∈ (compare_lists
      (run_all_flow srcTree stamp ts pkg tech hashS hashD copyOk lhS lhD).src_shas
      (run_all_flow srcTree stamp ts pkg tech hashS hashD copyOk
        lhS lhD).dest_shas).missing_in_dest ∧
    0 < (run_all_flow srcTree stamp ts pkg tech hashS hashD copyOk
      lhS lhD).summary.missing_in_destination := by
  have hfe : (run_all_flow srcTree stamp ts pkg tech hashS hashD copyOk
      lhS lhD).files_to_copy =
      (copy_include_top_with_progress
        (srcTree ++ [srcLedgerName stamp]) copyOk).1 := rfl
  rw [hfe] at hf
  have hf' : f ∈ srcTree ++ [srcLedgerName stamp] ∧
      excludedFileName (pyBasename f) = false :=
    (mem_files_to_copy _ _ _).mp hf
  have hfsrc : f ∈ srcTree := by
    rcases List.mem_append.mp hf'.1 with hin | hled
    · exact hin
    · exfalso
      have hfe : f = srcLedgerName stamp := by simpa using hled
      have : excludedFileName (pyBasename (srcLedgerName stamp)) = true := by
        rw [pyBasename_no_slash _ (slash_not_mem_srcLedgerName stamp hstamp)]
        exact srcLedgerName_excluded stamp
      rw [hfe] at hf'
      rw [this] at hf'
      exact absurd hf'.2 (by decide)
  have hnc : f ∉ (copy_include_top_with_progress
      (srcTree ++ [srcLedgerName stamp]) copyOk).2 := by
    intro hmem
    have hm := (mem_copied _ _ _).mp hmem
    rw [hcopy] at hm
    exact absurd hm.2.2 (by decide)
  have hsrcmap : (run_all_flow srcTree stamp ts pkg tech hashS hashD copyOk
      lhS lhD).src_shas = (write_checksums_file srcTree hashS ts pkg).1 := rfl
  have hdestmap : (run_all_flow srcTree stamp ts pkg tech hashS hashD copyOk
      lhS lhD).dest_shas =
      (write_checksums_file (copy_include_top_with_progress
        (srcTree ++ [srcLedgerName stamp]) copyOk).2 hashD ts pkg).1 := rfl
  have hsget : dictGet (run_all_flow srcTree stamp ts pkg tech hashS hashD
      copyOk lhS lhD).src_shas f = some (some s) := by
    rw [hsrcmap, write_checksums_keyset, if_pos hfsrc, hsrc]
  have hspy : pyGet (run_all_flow srcTree stamp ts pkg tech hashS hashD
      copyOk lhS lhD).src_shas f = some s := by
    simp [pyGet, hsget]
  have hdpy : pyGet (run_all_flow srcTree stamp ts pkg tech hashS hashD
      copyOk lhS lhD).dest_shas f = none := by
    simp [pyGet, hdestmap, write_checksums_keyset, if_neg hnc]
  have hcls : classify
      (run_all_flow srcTree stamp ts pkg tech hashS hashD copyOk lhS lhD).src_shas
      (run_all_flow srcTree stamp ts pkg tech hashS hashD copyOk
        lhS lhD).dest_shas f = .missing :=
    (classify_eq_missing_iff _ _ _).mpr ⟨⟨s, hspy⟩, hdpy⟩
  have hkey : f ∈ allKeys
      (run_all_flow srcTree stamp ts pkg tech hashS hashD copyOk lhS lhD).src_shas
      (run_all_flow srcTree stamp ts pkg tech hashS hashD copyOk
        lhS lhD).dest_shas :=
    (mem_allKeys _ _ _).mpr (Or.inl (mem_mappingKeys_of_dictGet _ _
      (by rw [hsget]; exact fun hc => Option.noConfusion hc)))
  have hmiss : f ∈ (compare_lists
      (run_all_flow srcTree stamp ts pkg tech hashS hashD copyOk lhS lhD).src_shas
      (run_all_flow srcTree stamp ts pkg tech hashS hashD copyOk
        lhS lhD).dest_shas).missing_in_dest := by
    rw [compare_lists_eq]
    exact List.mem_filter.mpr ⟨hkey, by simp [hcls]⟩
  refine ⟨hnc, hmiss, ?_⟩
  have hcount : (run_all_flow srcTree stamp ts pkg tech hashS hashD copyOk
      lhS lhD).summary.missing_in_destination =
      (compare_lists
        (run_all_flow srcTree stamp ts pkg tech hashS hashD copyOk
          lhS lhD).src_shas
        (run_all_flow srcTree stamp ts pkg tech hashS hashD copyOk
          lhS lhD).dest_shas).missing_in_dest.length := rfl
  rw [hcount]
  exact List.length_pos.mpr (List.ne_nil_of_mem hmiss)

/-- C8 counterexample: when the unreadable file also failed to hash in the
source pass, its failed transfer does not surface at all — the comparison
skips the path (null on both sides), `missing_in_destination` stays zero,
and the manifest verdict is even `PASS`. -/
theorem copy_failure_silent :
    "f.txt".toList ∈ flowUnreadableFile.files_to_copy ∧
    "f.txt".toList ∉ flowUnreadableFile.copied ∧
    flowUnreadableFile.summary.missing_in_destination = 0 ∧
    flowUnreadableFile.manifest.overall_status = "PASS".toList := by
  decide

/-- Concrete instance of the amended C8: `b.txt` hashes fine in the source
pass, its transfer fails, and the comparison reports it missing in the
destination. -/
theorem copy_failure_surfaces_witness :
    "b.txt".toList ∉ flowCopyFailure.copied ∧
    "b.txt".toList ∈ (compare_lists flowCopyFailure.src_shas
      flowCopyFailure.dest_shas).missing_in_dest ∧
    0 < flowCopyFailure.summary.missing_in_destination :=
  copy_failure_surfaces _ _ _ _ _ _ _ _ _ _ _ demoDigest (by decide)
    (by decide) (by decide) rfl

/-- C9: the manifest inventory is enumerated after the destination ledger is
written into the destination tree, so it always contains an entry for the
destination ledger itself, carrying a null `sha256` (the destination digest
mapping has no digest for it), and the file count exceeds the number of
copied-and-hashed files by exactly that entry. -/
theorem manifest_lists_dest_ledger (srcTree : List Str) (stamp ts pkg tech : Str)
    (hashS hashD : Str → Option Str) (copyOk : Str → Bool)
    (lhS lhD : Option Str)
    (hstamp : '/' ∉ stamp)
    (hnot : destLedgerName stamp ∉ srcTree) :
    (destLedgerName stamp, (none : Option Str)) ∈
      (run_all_flow srcTree stamp ts pkg tech hashS hashD copyOk
        lhS lhD).manifest.files ∧
    (run_all_flow srcTree stamp ts pkg tech hashS hashD copyOk
      lhS lhD).manifest.file_count =
      (run_all_flow srcTree stamp ts pkg tech hashS hashD copyOk
        lhS lhD).copied.length + 1 := by
  have hsub : ∀ r ∈ (copy_include_top_with_progress
      (srcTree ++ [srcLedgerName stamp]) copyOk).2, r ∈ srcTree := by
    intro r hr
    have hm := (mem_copied _ _ _).mp hr
    rcases List.mem_append.mp hm.1 with hin | hled
    · exact hin
    · exfalso
      have hre : r = srcLedgerName stamp := by simpa using hled
      have hexc : excludedFileName (pyBasename (srcLedgerName stamp)) = true := by
        rw [pyBasename_no_slash _ (slash_not_mem_srcLedgerName stamp hstamp)]
        exact srcLedgerName_excluded stamp
      rw [hre, hexc] at hm
      exact absurd hm.2.1 (by decide)
  have hnc : destLedgerName stamp ∉ (copy_include_top_with_progress
      (srcTree ++ [srcLedgerName stamp]) copyOk).2 :=
    fun hmem => hnot (hsub _ hmem)
  have hfiles : (run_all_flow srcTree stamp ts pkg tech hashS hashD copyOk
      lhS lhD).manifest.files =
      (List.insertionSort strLe ((copy_include_top_with_progress
        (srcTree ++ [srcLedgerName stamp]) copyOk).2 ++ [destLedgerName stamp])).map
        (fun rel => (rel, pyGet (write_checksums_file
          (copy_include_top_with_progress
            (srcTree ++ [srcLedgerName stamp]) copyOk).2 hashD ts pkg).1 rel)) :=
    rfl
  have hpy : pyGet (write_checksums_file (copy_include_top_with_progress
      (srcTree ++ [srcLedgerName stamp]) copyOk).2 hashD ts pkg).1
      (destLedgerName stamp) = none := by
    simp [pyGet, write_checksums_keyset, if_neg hnc]
  constructor
  · rw [hfiles]
    refine List.mem_map.mpr ⟨destLedgerName stamp, ?_, by rw [hpy]⟩
    exact (List.perm_insertionSort strLe _).mem_iff.mpr
      (List.mem_append_right _ (List.mem_singleton_self _))
  · have hc : (run_all_flow srcTree stamp ts pkg tech hashS hashD copyOk
        lhS lhD).manifest.file_count =
        ((run_all_flow srcTree stamp ts pkg tech hashS hashD copyOk
          lhS lhD).manifest.files).length := rfl
    rw [hc, hfiles, List.length_map,
      (List.perm_insertionSort strLe _).length_eq, List.length_append]
    rfl

/-- Concrete instance of C9: in a clean two-file run the manifest lists the
destination ledger with a null digest and counts one more file than was
copied and hashed. -/
theorem manifest_lists_dest_ledger_witness :
    (destLedgerName "20240101_120000".toList, (none : Option Str)) ∈
      flowCopyFailure.manifest.files ∧
    flowCopyFailure.manifest.file_count = flowCopyFailure.copied.length + 1 :=
  manifest_lists_dest_ledger _ _ _ _ _ _ _ _ _ _ (by decide) (by decide)

end Copycheck
